import Mathlib

/-!
# Verification of the report/task storage layer of the Report-Dashboard repository

This file gives a shallow embedding, in Lean, of the persistence layer of
`officer_report_dash.py` and `task_management_dash.py`: the functions
`save_report`, `load_reports`, `auto_archive_old_reports`, the "Approve"
review action of `review_reports`, the storage effect of `submit_report`,
and `save_task` / `load_tasks`.

The filesystem under `REPORTS_DIR` is modelled as an association list from
top-level directory names to directory contents (association lists from file
names to documents).  A stored JSON document either parses to a `Report`
(a record of the fields the dashboard reads and writes) or is `malformed`.
The nested archive tree `Archives/{year_month}/{officer}` is modelled as a
separate association list keyed by the pair `(year_month, officer)`.

Python built-ins used by the code (`str.split()`, `str.replace(' ', '_')`,
`str.endswith`, `datetime.strptime(s, "%Y-%m-%d")`, `strftime`) are embedded
as executable Lean functions over the character list of the string.
-/

namespace ReportDash

/-! ## Association-list primitives (the model of directories) -/

/-- Look up the value stored at key `k` (first occurrence wins, as a real
directory has at most one entry per name). -/
def lookupA {κ α : Type} [DecidableEq κ] (k : κ) : List (κ × α) → Option α
  | [] => none
  | (k', v) :: rest => if k' = k then some v else lookupA k rest

/-- Write value `v` at key `k`: overwrite the first existing entry, or append
a new entry at the end (the model of creating/overwriting a file). -/
def insertA {κ α : Type} [DecidableEq κ] (k : κ) (v : α) : List (κ × α) → List (κ × α)
  | [] => [(k, v)]
  | (k', v') :: rest => if k' = k then (k, v) :: rest else (k', v') :: insertA k v rest

theorem lookupA_insertA_self {κ α : Type} [DecidableEq κ] (k : κ) (v : α) (l : List (κ × α)) :
    lookupA k (insertA k v l) = some v := by
  induction l with
  | nil => simp [insertA, lookupA]
  | cons e rest ih =>
    obtain ⟨k', v'⟩ := e
    by_cases h : k' = k
    · simp [insertA, lookupA, h]
    · simp [insertA, lookupA, h, ih]

theorem lookupA_insertA_ne {κ α : Type} [DecidableEq κ] (k k₀ : κ) (v : α) (l : List (κ × α))
    (h : k₀ ≠ k) : lookupA k (insertA k₀ v l) = lookupA k l := by
  induction l with
  | nil => simp [insertA, lookupA, h]
  | cons e rest ih =>
    obtain ⟨k', v'⟩ := e
    by_cases hk : k' = k₀
    · subst hk
      simp [insertA, lookupA, h, ih]
    · simp only [insertA, if_neg hk]
      by_cases hk2 : k' = k
      · simp [lookupA, hk2]
      · simp [lookupA, hk2, ih]

theorem mem_insertA_self {κ α : Type} [DecidableEq κ] (k : κ) (v : α) (l : List (κ × α)) :
    (k, v) ∈ insertA k v l := by
  induction l with
  | nil => simp [insertA]
  | cons e rest ih =>
    obtain ⟨k', v'⟩ := e
    by_cases h : k' = k
    · simp [insertA, h]
    · simp only [insertA, if_neg h]
      exact List.mem_cons_of_mem _ ih

theorem mem_insertA_of_ne {κ α : Type} [DecidableEq κ] (k k₀ : κ) (v v₀ : α) (l : List (κ × α))
    (hmem : (k, v) ∈ l) (h : k ≠ k₀) : (k, v) ∈ insertA k₀ v₀ l := by
  induction l with
  | nil => simp at hmem
  | cons e rest ih =>
    obtain ⟨k', v'⟩ := e
    by_cases hk : k' = k₀
    · subst hk
      simp only [insertA, if_pos rfl]
      rcases List.mem_cons.mp hmem with he | hrest
      · exact absurd (congrArg Prod.fst he) h
      · exact List.mem_cons_of_mem _ hrest
    · simp only [insertA, if_neg hk]
      rcases List.mem_cons.mp hmem with he | hrest
      · exact List.mem_cons.mpr (Or.inl he)
      · exact List.mem_cons_of_mem _ (ih hrest)

theorem insertA_cons_self {κ α : Type} [DecidableEq κ] (k : κ) (v v' : α)
    (rest : List (κ × α)) : insertA k v ((k, v') :: rest) = (k, v) :: rest := by
  simp [insertA]

theorem insertA_cons_ne {κ α : Type} [DecidableEq κ] (k k' : κ) (v v' : α)
    (rest : List (κ × α)) (h : k' ≠ k) :
    insertA k v ((k', v') :: rest) = (k', v') :: insertA k v rest := by
  simp [insertA, h]

theorem insertA_insertA_same {κ α : Type} [DecidableEq κ] (k : κ) (v₁ v₂ : α) (l : List (κ × α)) :
    insertA k v₂ (insertA k v₁ l) = insertA k v₂ l := by
  induction l with
  | nil => simp [insertA]
  | cons e rest ih =>
    obtain ⟨k', v'⟩ := e
    by_cases h : k' = k
    · simp [insertA, h]
    · simp [insertA, h, ih]

theorem lookupA_mem {κ α : Type} [DecidableEq κ] (k : κ) (v : α) (l : List (κ × α))
    (h : lookupA k l = some v) : (k, v) ∈ l := by
  induction l with
  | nil => simp [lookupA] at h
  | cons e rest ih =>
    obtain ⟨k', v'⟩ := e
    by_cases hk : k' = k
    · subst hk
      simp [lookupA] at h
      simp [h]
    · simp [lookupA, hk] at h
      right
      exact ih h

/-- In a directory with no duplicate names, an entry is determined by its name. -/
theorem nodup_keys_mem_eq {κ α : Type} [DecidableEq κ] (k : κ) (a b : α) (l : List (κ × α))
    (hnd : (l.map Prod.fst).Nodup) (ha : (k, a) ∈ l) (hb : (k, b) ∈ l) : a = b := by
  induction l with
  | nil => simp at ha
  | cons e rest ih =>
    obtain ⟨k', v'⟩ := e
    simp only [List.map_cons, List.nodup_cons] at hnd
    rcases List.mem_cons.mp ha with hea | hra
    · rcases List.mem_cons.mp hb with heb | hrb
      · injection hea with h1 h2
        injection heb with h3 h4
        exact h2.trans h4.symm
      · injection hea with h1 h2
        exact absurd (h1 ▸ List.mem_map_of_mem Prod.fst hrb) hnd.1
    · rcases List.mem_cons.mp hb with heb | hrb
      · injection heb with h1 h2
        exact absurd (h1 ▸ List.mem_map_of_mem Prod.fst hra) hnd.1
      · exact ih hnd.2 hra hrb

theorem lookupA_eq_some_of_mem_nodup {κ α : Type} [DecidableEq κ] (k : κ) (v : α)
    (l : List (κ × α)) (hnd : (l.map Prod.fst).Nodup) (h : (k, v) ∈ l) :
    lookupA k l = some v := by
  induction l with
  | nil => simp at h
  | cons e rest ih =>
    obtain ⟨k', v'⟩ := e
    simp only [List.map_cons, List.nodup_cons] at hnd
    rcases List.mem_cons.mp h with he | hr
    · injection he with h1 h2
      subst h1 h2
      simp [lookupA]
    · by_cases hk : k' = k
      · subst hk
        exact absurd (List.mem_map_of_mem Prod.fst hr) hnd.1
      · simp [lookupA, hk]
        exact ih hnd.2 hr

/-! ## Embeddings of the Python string built-ins -/

/-- Auxiliary state machine for Python `str.split()` (split on whitespace
runs, drop empty fields). -/
def splitWsAux : List Char → List Char → List String
  | [], acc => if acc.isEmpty then [] else [String.mk acc.reverse]
  | c :: cs, acc =>
    if c.isWhitespace then
      if acc.isEmpty then splitWsAux cs [] else String.mk acc.reverse :: splitWsAux cs []
    else splitWsAux cs (c :: acc)

/-- Python `s.split()` with no arguments. -/
def pySplitWs (s : String) : List String := splitWsAux s.data []

/-- Python `s.replace(' ', '_')` (single-character from/to, hence a map). -/
def replaceSpaces (s : String) : String :=
  String.mk (s.data.map fun c => if c = ' ' then '_' else c)

/-- Python `s.endswith(suf)`. -/
def pyEndsWith (s suf : String) : Bool :=
  decide (s.data.drop (s.data.length - suf.data.length) = suf.data)

theorem pyEndsWith_append (a suf : String) : pyEndsWith (a ++ suf) suf = true := by
  simp only [pyEndsWith, String.data_append, List.length_append, Nat.add_sub_cancel,
    decide_eq_true_eq]
  exact List.drop_left a.data suf.data

/-- Python `str.split('-')` (single-character separator, empty fields kept). -/
def splitDashAux : List Char → List Char → List String
  | [], acc => [String.mk acc.reverse]
  | c :: cs, acc =>
    if c = '-' then String.mk acc.reverse :: splitDashAux cs []
    else splitDashAux cs (c :: acc)

def pySplitDash (s : String) : List String := splitDashAux s.data []

/-- Numeric value of an all-digit, nonempty string (the strings accepted by
the `%Y`, `%m`, `%d` fields of CPython `strptime`). -/
def digitsToNat (s : String) : Option Nat :=
  if s.data ≠ [] ∧ s.data.all (fun c => c.isDigit) then
    some (s.data.foldl (fun n c => n * 10 + (c.toNat - 48)) 0)
  else none

/-! ## Calendar dates -/

/-- A calendar date, as produced by `datetime.strptime(s, "%Y-%m-%d")`. -/
structure Date where
  year : Nat
  month : Nat
  day : Nat
deriving DecidableEq, Repr

/-- Strict chronological comparison of dates (`datetime.__lt__` restricted to
midnight datetimes: lexicographic on year, month, day). -/
def Date.ltb (a b : Date) : Bool :=
  decide (a.year < b.year ∨ (a.year = b.year ∧
    (a.month < b.month ∨ (a.month = b.month ∧ a.day < b.day))))

/-- Gregorian leap-year test, as in `datetime`. -/
def isLeap (y : Nat) : Bool :=
  decide (y % 4 = 0 ∧ (y % 100 ≠ 0 ∨ y % 400 = 0))

def daysInMonth (y m : Nat) : Nat :=
  if m = 2 then (if isLeap y then 29 else 28)
  else if m = 4 ∨ m = 6 ∨ m = 9 ∨ m = 11 then 30
  else 31

/-- Embedding of `datetime.strptime(s, "%Y-%m-%d")`, returning `none` where CPython raises
`ValueError`: `%Y` is exactly four digits, `%m` and `%d` one or two digits,
ranges checked against the calendar, and no unconverted data may remain. -/
def parseDate (s : String) : Option Date :=
  match pySplitDash s with
  | [ys, ms, ds] =>
    match digitsToNat ys, digitsToNat ms, digitsToNat ds with
    | some y, some m, some d =>
      if ys.length = 4 ∧ ms.length ≤ 2 ∧ ds.length ≤ 2 ∧
          1 ≤ y ∧ 1 ≤ m ∧ m ≤ 12 ∧ 1 ≤ d ∧ d ≤ daysInMonth y m then
        some ⟨y, m, d⟩
      else none
    | _, _, _ => none
  | _ => none

/-- Zero-padded two-digit rendering (`%m`). -/
def pad2 (n : Nat) : String := if n < 10 then "0" ++ toString n else toString n

/-- Zero-padded four-digit rendering (`%Y`). -/
def pad4 (n : Nat) : String :=
  if n < 10 then "000" ++ toString n
  else if n < 100 then "00" ++ toString n
  else if n < 1000 then "0" ++ toString n
  else toString n

/-- Embedding of `report_date.strftime('%Y_%m')`, the archive partition name. -/
def ymStr (d : Date) : String := pad4 d.year ++ "_" ++ pad2 d.month

/-! ## The data model: reports, documents, the filesystem

A `Report` holds the fields of the JSON dictionaries that
`officer_report_dash.py` writes and reads.  An `Option` field models a key
that may be absent from the dictionary (the code tests presence with
`'key' not in report_data` / `.get`); `none` stands for an absent key.
Type-discriminated extras (`total_schedule_files`, `companies_assigned`, …)
are never read back by the functions under verification and are omitted. -/

structure Report where
  id : Option String
  type : String
  date : String
  officer_name : Option String
  tasks : String
  challenges : String
  solutions : String
  status : Option String
  submission_date : Option String
  review_date : Option String
  reviewer_notes : Option String
  priority : Option String
  attachments : Option (List String)
  comments : Option (List String)
deriving DecidableEq, Repr

/-- A file's content: a JSON document that parses to a report dictionary, or
one on which `json.load` raises (malformed). -/
inductive Doc where
  | report (r : Report) : Doc
  | malformed : Doc
deriving DecidableEq, Repr

/-- The reserved top-level folder names of `officer_report_dash.py`. -/
def ADDITIONAL_FOLDERS : List String :=
  ["Templates", "Summaries", "Archives", "Attachments", "Tasks"]

/-- Reports older than this many days are meant to be auto-archived. -/
def AUTO_ARCHIVE_DAYS : Nat := 30

/-- The directory tree under `REPORTS_DIR`.  `folders` maps each top-level
directory name to its files; the nested archive tree
`Archives/{year_month}/{officer}` is modelled by `archives`, keyed by the
pair `(year_month, officer)`. -/
structure FS where
  folders : List (String × List (String × Doc))
  archives : List ((String × String) × List (String × Doc))
deriving DecidableEq, Repr

/-- Well-formedness facts any real directory tree satisfies: directory names
are distinct and nonempty, and file names within a directory are distinct. -/
def FS.WF (fs : FS) : Prop :=
  (fs.folders.map Prod.fst).Nodup ∧
  ∀ e ∈ fs.folders, e.1 ≠ "" ∧ (e.2.map Prod.fst).Nodup

/-! ## `save_report` -/

/-- The defaulting at the top of `save_report`: add `status` and `comments`
keys when absent. -/
def fillDefaults (r : Report) : Report :=
  { r with status := some (r.status.getD "Pending Review"),
           comments := some (r.comments.getD []) }

/-- The file name `save_report` derives from a record:
`{formatted_date}_{type with spaces replaced}.json`, where the formatted date
is the first whitespace-separated token of the date string.  `none` when
`report_data['date'].split()[0]` raises `IndexError`. -/
def reportFilename (r : Report) : Option String :=
  (pySplitWs r.date).head?.map
    (fun fd => fd ++ "_" ++ replaceSpaces r.type ++ ".json")

/-- Embedding of `save_report(officer_name, report_data)`: default the status and comments,
create the officer directory if missing, and write the serialized record at
the derived file name, silently overwriting.  The JSON dump/load round trip
in the code is the identity on the modelled dictionaries.  `none` models the
`IndexError` escaping when the date string has no tokens. -/
def save_report (officer_name : String) (report_data : Report) (fs : FS) : Option FS :=
  match reportFilename (fillDefaults report_data) with
  | none => none
  | some fname =>
    some ⟨insertA officer_name
        (insertA fname (Doc.report (fillDefaults report_data))
          ((lookupA officer_name fs.folders).getD []))
        fs.folders,
      fs.archives⟩

/-! ## `load_reports` -/

/-- Loading the files of one officer directory: consider `.json` files other
than `template.json`; a file that fails to parse is reported and skipped;
a parsed record lacking the `officer_name` key gets the folder's name. -/
def fillOfficer (officer : String) (r : Report) : Report :=
  if r.officer_name.isNone then { r with officer_name := some officer } else r

/-- The file filter of `load_reports`: `.json` files other than
`template.json`. -/
def goodName (e : String × Doc) : Bool :=
  pyEndsWith e.1 ".json" && decide (e.1 ≠ "template.json")

/-- Parse one file: a report document yields the (officer-filled) record,
a malformed one is skipped. -/
def docToReport (officer : String) (e : String × Doc) : Option Report :=
  match e.2 with
  | Doc.report r => some (fillOfficer officer r)
  | Doc.malformed => none

def loadFolder (officer : String) (files : List (String × Doc)) : List Report :=
  (files.filter goodName).filterMap (docToReport officer)

/-- The branch of `load_reports` for a named officer folder: not a directory
(or reserved) means the empty result. -/
def load_one (fs : FS) (officer : String) : List Report :=
  match lookupA officer fs.folders with
  | some files => if officer ∈ ADDITIONAL_FOLDERS then [] else loadFolder officer files
  | none => []

/-- The branch of `load_reports` that walks every top-level directory,
skipping the reserved folders. -/
def load_all (fs : FS) : List Report :=
  fs.folders.flatMap
    (fun e => if e.1 ∈ ADDITIONAL_FOLDERS then [] else loadFolder e.1 e.2)

/-- Embedding of `load_reports(officer_folder=None)`.  A `None` or empty-string argument
is falsy in Python, so both select the walk over all folders. -/
def load_reports (fs : FS) (officer_folder : Option String) : List Report :=
  match officer_folder with
  | some o => if o = "" then load_all fs else load_one fs o
  | none => load_all fs

/-- The test for a document that `json.load` accepts. -/
def notMalformed (x : String × Doc) : Bool :=
  match x.2 with
  | Doc.malformed => false
  | Doc.report _ => true

/-- One directory entry with its malformed documents removed. -/
def dropEntry (e : String × List (String × Doc)) : String × List (String × Doc) :=
  (e.1, e.2.filter notMalformed)

/-- Removing every malformed document from the tree (used to state that
malformed documents are skipped, not fatal). -/
def dropMalformed (fs : FS) : FS :=
  ⟨fs.folders.map dropEntry, fs.archives⟩

/-! ## The "Approve" review action of `review_reports` -/

/-- The mutation the Approve button applies to a pending report before
re-saving it: status `Approved`, the current wall-clock string as
`review_date`, and the reviewer's notes. -/
def approveReport (review_ts reviewer_notes : String) (r : Report) : Report :=
  { r with status := some "Approved",
           review_date := some review_ts,
           reviewer_notes := some reviewer_notes }

/-- The Approve action: mutate the record, then
`save_report(report.get('officer_name', 'Unknown'), report)`. -/
def approve_action (review_ts reviewer_notes : String) (r : Report) (fs : FS) : Option FS :=
  save_report (r.officer_name.getD "Unknown") (approveReport review_ts reviewer_notes r) fs

/-! ## The storage effect of `submit_report` -/

/-- The successful path of `submit_report` (no attachments uploaded): the
guard requires a real officer selection and nonempty tasks text; the report
dictionary is built with status `Pending Review` and saved via `save_report`.
Notably, `auto_archive_old_reports` is not invoked anywhere in this flow
(nor anywhere else in the repository). -/
def submit_report (officer_name dateStr category tasks challenges solutions
    idStr submission_ts : String) (fs : FS) : Option FS :=
  if officer_name ≠ "" ∧ officer_name ≠ "Select Officer..." ∧
      officer_name ≠ "+ Add New Officer" ∧ tasks ≠ "" then
    save_report officer_name
      { id := some idStr, type := category, date := dateStr,
        officer_name := some officer_name, tasks := tasks,
        challenges := challenges, solutions := solutions,
        status := some "Pending Review", submission_date := some submission_ts,
        review_date := none, reviewer_notes := none, priority := some "Normal",
        attachments := some [], comments := none } fs
  else none

/-! ## `auto_archive_old_reports`

The Python function computes `archive_before = datetime.now() -
timedelta(days=AUTO_ARCHIVE_DAYS)` and then, per officer folder and per
`.json` file, parses the record's date and moves the file to
`Archives/{year_month}/{officer}/{filename}` when the date is strictly
before the cutoff.  The embedding takes the computed cutoff date as the
parameter `archive_before`; the `timedelta` subtraction itself is `datetime`
library code, not repository code. -/

/-- Classify one file of an officer folder: `some d` (its parsed date) when
the sweep moves it, `none` when the file stays (not `.json`, malformed
JSON, or unparseable date — the `except` branch — or a recent date). -/
def classifyFile (archive_before : Date) (e : String × Doc) : Option Date :=
  if pyEndsWith e.1 ".json" then
    match e.2 with
    | Doc.report r =>
      match parseDate r.date with
      | some d => if Date.ltb d archive_before then some d else none
      | none => none
    | Doc.malformed => none
  else none

/-- One officer folder after the sweep: the kept files, and the moved files
tagged with their archive partition `{year}_{month}`. -/
def sweepFolder (archive_before : Date) (files : List (String × Doc)) :
    List (String × Doc) × List (String × String × Doc) :=
  (files.filter (fun e => (classifyFile archive_before e).isNone),
   files.filterMap (fun e =>
      (classifyFile archive_before e).map (fun d => (ymStr d, e.1, e.2))))

/-- Record the moved files of officer `o` under
`Archives/{year_month}/{o}/{filename}` (`shutil.move`, overwriting an
existing target as `os.rename` does). -/
def archiveInto (o : String) (moved : List (String × String × Doc))
    (arch : List ((String × String) × List (String × Doc))) :
    List ((String × String) × List (String × Doc)) :=
  moved.foldl
    (fun a e => insertA (e.1, o) (insertA e.2.1 e.2.2 ((lookupA (e.1, o) a).getD [])) a) arch

/-- The effect of the sweep on one top-level directory entry: reserved
folders are skipped, officer folders keep only the files the sweep leaves. -/
def sweepEntry (archive_before : Date) (e : String × List (String × Doc)) :
    String × List (String × Doc) :=
  (e.1, if e.1 ∈ ADDITIONAL_FOLDERS then e.2 else (sweepFolder archive_before e.2).1)

/-- The effect of one top-level directory entry on the archive tree. -/
def archStep (archive_before : Date)
    (arch : List ((String × String) × List (String × Doc)))
    (e : String × List (String × Doc)) :
    List ((String × String) × List (String × Doc)) :=
  if e.1 ∈ ADDITIONAL_FOLDERS then arch
  else archiveInto e.1 (sweepFolder archive_before e.2).2 arch

/-- Embedding of `auto_archive_old_reports()`: sweep every non-reserved top-level folder,
keeping the recent/unreadable files in place and moving the old ones into
the archive tree. -/
def auto_archive_old_reports (archive_before : Date) (fs : FS) : FS :=
  { folders := fs.folders.map (sweepEntry archive_before),
    archives := fs.folders.foldl (archStep archive_before) fs.archives }

/-- The store-consistency invariant `save_report` maintains: every parsed
report file sits at the file name derived from its own date and type. -/
def StoreConsistent (fs : FS) : Prop :=
  ∀ o dir f r, (o, dir) ∈ fs.folders → (f, Doc.report r) ∈ dir →
    reportFilename r = some f

/-! ## Tasks (`task_management_dash.py`) -/

/-- The fields of a stored task dictionary that the task dashboard reads. -/
structure Task where
  task_id : Option String
  title : String
  description : String
  priority : String
  category : String
  status : String
  due_date : String
  assigned_to : String
  created_date : String
  comments : List String
deriving DecidableEq, Repr

inductive TaskDoc where
  | task (t : Task) : TaskDoc
  | malformed : TaskDoc
deriving DecidableEq, Repr

/-- Embedding of `save_task(task_data)`: the identifier is the stored `task_id` if present,
otherwise `datetime.now().strftime('%Y%m%d_%H%M%S')` (passed here as
`now_ts`); the dictionary is written unchanged to `task_{id}.json` and the
identifier returned. -/
def save_task (now_ts : String) (task_data : Task) (dir : List (String × TaskDoc)) :
    String × List (String × TaskDoc) :=
  let task_id := task_data.task_id.getD now_ts
  (task_id, insertA ("task_" ++ task_id ++ ".json") (TaskDoc.task task_data) dir)

/-- Embedding of `load_tasks()`: every `.json` file of the tasks directory that parses. -/
def load_tasks (dir : List (String × TaskDoc)) : List Task :=
  (dir.filter (fun e => pyEndsWith e.1 ".json")).filterMap
    (fun e => match e.2 with
      | TaskDoc.task t => some t
      | TaskDoc.malformed => none)

/-! ## Helper lemmas about the embedded operations -/

theorem fillDefaults_eq_self (r : Report) (hst : r.status.isSome)
    (hcm : r.comments.isSome) : fillDefaults r = r := by
  obtain ⟨s, hs⟩ := Option.isSome_iff_exists.mp hst
  obtain ⟨c, hc⟩ := Option.isSome_iff_exists.mp hcm
  cases r
  simp_all [fillDefaults]

theorem fillOfficer_eq_self (o : String) (r : Report) (hoff : r.officer_name.isSome) :
    fillOfficer o r = r := by
  obtain ⟨x, hx⟩ := Option.isSome_iff_exists.mp hoff
  simp [fillOfficer, hx]

theorem fillOfficer_date (o : String) (r : Report) : (fillOfficer o r).date = r.date := by
  unfold fillOfficer
  by_cases h : r.officer_name.isNone <;> simp [h]

theorem fillOfficer_type (o : String) (r : Report) : (fillOfficer o r).type = r.type := by
  unfold fillOfficer
  by_cases h : r.officer_name.isNone <;> simp [h]

theorem pyEndsWith_suffix (s suf : String) (pre : List Char) (h : s.data = pre ++ suf.data) :
    pyEndsWith s suf = true := by
  simp only [pyEndsWith, h, List.length_append, Nat.add_sub_cancel, decide_eq_true_eq]
  exact List.drop_left pre suf.data

theorem pyEndsWith_reportFilename (fd ty : String) :
    pyEndsWith (fd ++ "_" ++ replaceSpaces ty ++ ".json") ".json" = true := by
  apply pyEndsWith_suffix _ _ (fd.data ++ "_".data ++ (replaceSpaces ty).data)
  simp only [String.data_append, List.append_assoc]

theorem length_append_str (a b : String) : (a ++ b).length = a.length + b.length := by
  show (a ++ b).data.length = a.data.length + b.data.length
  rw [String.data_append, List.length_append]

theorem reportFilename_ne_template (fd ty : String) (hlen : fd.length = 10) :
    fd ++ "_" ++ replaceSpaces ty ++ ".json" ≠ "template.json" := by
  intro h
  have hl := congrArg String.length h
  simp only [length_append_str, hlen] at hl
  have h13 : ("template.json" : String).length = 13 := by decide
  have h1 : ("_" : String).length = 1 := by decide
  have h5 : (".json" : String).length = 5 := by decide
  rw [h13, h1, h5] at hl
  omega

/-- Saving a record with explicit status and comments and a
space-free date writes exactly that record at its derived file name. -/
theorem save_report_eq (o : String) (r : Report) (fs : FS)
    (hsplit : pySplitWs r.date = [r.date])
    (hst : r.status.isSome) (hcm : r.comments.isSome) :
    save_report o r fs =
      some ⟨insertA o
          (insertA (r.date ++ "_" ++ replaceSpaces r.type ++ ".json") (Doc.report r)
            ((lookupA o fs.folders).getD []))
          fs.folders,
        fs.archives⟩ := by
  have hfill : fillDefaults r = r := fillDefaults_eq_self r hst hcm
  simp only [save_report, reportFilename, hfill, hsplit, List.head?_cons, Option.map_some']

theorem mem_loadFolder (o f : String) (r : Report) (files : List (String × Doc))
    (hmem : (f, Doc.report r) ∈ files) (hjson : pyEndsWith f ".json" = true)
    (htpl : f ≠ "template.json") :
    fillOfficer o r ∈ loadFolder o files := by
  unfold loadFolder
  apply List.mem_filterMap.mpr
  refine ⟨(f, Doc.report r), ?_, rfl⟩
  apply List.mem_filter.mpr
  refine ⟨hmem, ?_⟩
  simp [goodName, hjson, htpl]

/-! ## Claim C1 -/

/-- C1: for every valid (officer, date, type) triple and fully-populated
report record, `save_report(officer, record)` followed by
`load_reports(officer)` returns a record equal to the one that was saved.
Validity of the triple: the officer name is not a reserved folder name and
not empty, and the date is a space-free ten-character `YYYY-MM-DD` string;
fully populated: the `officer_name`, `status` and `comments` keys are
present, so the save-time defaulting and the load-time officer-name fill
leave the record unchanged. -/
theorem save_then_load_returns_saved (fs fs' : FS) (o : String) (r : Report)
    (hres : o ∉ ADDITIONAL_FOLDERS) (hne : o ≠ "")
    (hsplit : pySplitWs r.date = [r.date]) (hlen : r.date.length = 10)
    (hoff : r.officer_name.isSome) (hst : r.status.isSome) (hcm : r.comments.isSome)
    (hs : save_report o r fs = some fs') :
    r ∈ load_reports fs' (some o) := by
  rw [save_report_eq o r fs hsplit hst hcm] at hs
  have hfs' := (Option.some.inj hs).symm
  subst hfs'
  simp only [load_reports, if_neg hne, load_one, lookupA_insertA_self, if_neg hres]
  have hm := mem_loadFolder o (r.date ++ "_" ++ replaceSpaces r.type ++ ".json") r
    (insertA (r.date ++ "_" ++ replaceSpaces r.type ++ ".json") (Doc.report r)
      ((lookupA o fs.folders).getD []))
    (mem_insertA_self _ _ _)
    (pyEndsWith_reportFilename r.date r.type)
    (reportFilename_ne_template r.date r.type hlen)
  rw [fillOfficer_eq_self o r hoff] at hm
  exact hm

def rptAlice : Report :=
  { id := some "i1", type := "Other Report", date := "2024-01-01",
    officer_name := some "Alice", tasks := "patrol", challenges := "none",
    solutions := "none", status := some "Pending Review",
    submission_date := some "2024-01-01 09:00:00", review_date := none,
    reviewer_notes := none, priority := some "Normal",
    attachments := some [], comments := some [] }

def fsEmpty : FS := ⟨[], []⟩

def fsAlice : FS :=
  ⟨[("Alice", [("2024-01-01_Other_Report.json", Doc.report rptAlice)])], []⟩

/-- Witness for C1 at a concrete store: saving Alice's report into the empty
tree and loading her folder returns the saved record. -/
theorem save_then_load_returns_saved_witness :
    rptAlice ∈ load_reports fsAlice (some "Alice") :=
  save_then_load_returns_saved fsEmpty fsAlice "Alice" rptAlice (by decide) (by decide)
    (by decide) (by decide) (by decide) (by decide) (by decide) (by decide)

/-- The (date, type) key test used to count records for a key. -/
def sameKey (d ty : String) (x : Report) : Bool := decide (x.date = d ∧ x.type = ty)

/-! ## Claim C2 -/

theorem save_report_eq_general (o : String) (r : Report) (fs : FS)
    (hsplit : pySplitWs r.date = [r.date]) :
    save_report o r fs =
      some ⟨insertA o
          (insertA (r.date ++ "_" ++ replaceSpaces r.type ++ ".json")
            (Doc.report (fillDefaults r)) ((lookupA o fs.folders).getD []))
          fs.folders,
        fs.archives⟩ := by
  have hd : (fillDefaults r).date = r.date := rfl
  have ht : (fillDefaults r).type = r.type := rfl
  simp only [save_report, reportFilename, hd, ht, hsplit, List.head?_cons, Option.map_some']

theorem goodName_eq (f : String) (dc : Doc) :
    goodName (f, dc) = (pyEndsWith f ".json" && decide (f ≠ "template.json")) := rfl

/-- Loading past a file whose name fails the `.json`/`template.json` filter. -/
theorem loadFolder_cons_badname (o f : String) (dc : Doc) (rest : List (String × Doc))
    (hc : ¬(goodName (f, dc) = true)) :
    loadFolder o ((f, dc) :: rest) = loadFolder o rest := by
  unfold loadFolder
  rw [List.filter_cons_of_neg hc]

/-- Loading past a malformed document: reported and skipped. -/
theorem loadFolder_cons_malformed (o f : String) (rest : List (String × Doc)) :
    loadFolder o ((f, Doc.malformed) :: rest) = loadFolder o rest := by
  by_cases hc : goodName (f, Doc.malformed) = true
  · unfold loadFolder
    rw [List.filter_cons_of_pos hc]
    exact List.filterMap_cons_none rfl
  · exact loadFolder_cons_badname o f Doc.malformed rest hc

/-- Loading a well-named report file contributes the (officer-filled) record. -/
theorem loadFolder_cons_report (o f : String) (r : Report) (rest : List (String × Doc))
    (hjson : pyEndsWith f ".json" = true) (htpl : f ≠ "template.json") :
    loadFolder o ((f, Doc.report r) :: rest) = fillOfficer o r :: loadFolder o rest := by
  unfold loadFolder
  rw [List.filter_cons_of_pos (show goodName (f, Doc.report r) = true by
    simp [goodName, hjson, htpl])]
  exact List.filterMap_cons_some rfl

/-- No record of the folder matches the key, so filtering the load result by
the key gives nothing. -/
theorem loadFolder_filter_key_nil (o d ty : String) (files : List (String × Doc))
    (H : ∀ f r, (f, Doc.report r) ∈ files → ¬(r.date = d ∧ r.type = ty)) :
    (loadFolder o files).filter (sameKey d ty) = [] := by
  induction files with
  | nil => rfl
  | cons e rest ih =>
    obtain ⟨f, dc⟩ := e
    have Hrest : ∀ f r, (f, Doc.report r) ∈ rest → ¬(r.date = d ∧ r.type = ty) :=
      fun f r hm => H f r (List.mem_cons_of_mem _ hm)
    by_cases hc : goodName (f, dc) = true
    · cases dc with
      | report r =>
        obtain ⟨hj, ht'⟩ := Bool.and_eq_true_iff.mp ((goodName_eq f (Doc.report r)) ▸ hc)
        have ht : f ≠ "template.json" := of_decide_eq_true ht'
        rw [loadFolder_cons_report o f r rest hj ht]
        rw [List.filter_cons_of_neg]
        · exact ih Hrest
        · show ¬ sameKey d ty (fillOfficer o r) = true
          simp only [sameKey, decide_eq_true_eq, fillOfficer_date, fillOfficer_type]
          exact H f r (List.mem_cons_self _ _)
      | malformed =>
        rw [loadFolder_cons_malformed]
        exact ih Hrest
    · rw [loadFolder_cons_badname o f dc rest hc]
      exact ih Hrest

/-- Writing `r2` at name `fname` into a folder where no other file holds a
record with the key leaves exactly one key-matching record in the load. -/
theorem loadFolder_insert_key (o d ty fname : String) (r2 : Report)
    (files : List (String × Doc))
    (hnd : (files.map Prod.fst).Nodup)
    (hjson : pyEndsWith fname ".json" = true) (htpl : fname ≠ "template.json")
    (hkey : r2.date = d ∧ r2.type = ty)
    (hfill : fillOfficer o r2 = r2)
    (H : ∀ f r, (f, Doc.report r) ∈ files → f ≠ fname → ¬(r.date = d ∧ r.type = ty)) :
    (loadFolder o (insertA fname (Doc.report r2) files)).filter
      (sameKey d ty) = [r2] := by
  induction files with
  | nil =>
    show (loadFolder o ((fname, Doc.report r2) :: [])).filter _ = [r2]
    rw [loadFolder_cons_report o fname r2 [] hjson htpl, hfill,
      List.filter_cons_of_pos (show sameKey d ty r2 = true from decide_eq_true hkey)]
    rfl
  | cons e rest ih =>
    obtain ⟨f, dc⟩ := e
    simp only [List.map_cons, List.nodup_cons] at hnd
    by_cases hf : f = fname
    · subst hf
      rw [insertA_cons_self]
      rw [loadFolder_cons_report o f r2 rest hjson htpl, hfill,
        List.filter_cons_of_pos (show sameKey d ty r2 = true from decide_eq_true hkey)]
      have hrest : (loadFolder o rest).filter (sameKey d ty) = [] := by
        apply loadFolder_filter_key_nil
        intro f' r' hm hk
        have hne : f' ≠ f := by
          intro he
          exact hnd.1 (he ▸ List.mem_map_of_mem Prod.fst hm)
        exact H f' r' (List.mem_cons_of_mem _ hm) hne hk
      rw [hrest]
    · rw [insertA_cons_ne fname f (Doc.report r2) dc rest hf]
      have Hrest : ∀ f' r, (f', Doc.report r) ∈ rest → f' ≠ fname →
          ¬(r.date = d ∧ r.type = ty) :=
        fun f' r hm => H f' r (List.mem_cons_of_mem _ hm)
      have ihr := ih hnd.2 Hrest
      by_cases hc : goodName (f, dc) = true
      · cases dc with
        | report r =>
          obtain ⟨hj, ht'⟩ := Bool.and_eq_true_iff.mp ((goodName_eq f (Doc.report r)) ▸ hc)
          have ht : f ≠ "template.json" := of_decide_eq_true ht'
          rw [loadFolder_cons_report o f r _ hj ht]
          rw [List.filter_cons_of_neg]
          · exact ihr
          · show ¬ sameKey d ty (fillOfficer o r) = true
            simp only [sameKey, decide_eq_true_eq, fillOfficer_date, fillOfficer_type]
            exact H f r (List.mem_cons_self _ _) hf
        | malformed =>
          rw [loadFolder_cons_malformed]
          exact ihr
      · rw [loadFolder_cons_badname o f dc _ hc]
        exact ihr

/-- C2: saving a second report with the same (officer, date, type) key
overwrites the first: after `save_report(o, r1)` then `save_report(o, r2)`
with equal date and type, `load_reports(o)` contains exactly one record for
that key, and it is `r2`.  The store is assumed well-formed and
store-consistent (every report file sits at the name derived from its own
date and type — the invariant `save_report` itself maintains). -/
theorem save_same_key_overwrites (fs fs1 fs2 : FS) (o : String) (r1 r2 : Report)
    (hwf : fs.WF) (hcons : StoreConsistent fs)
    (hres : o ∉ ADDITIONAL_FOLDERS) (hne : o ≠ "")
    (hd : r1.date = r2.date) (hty : r1.type = r2.type)
    (hsplit : pySplitWs r2.date = [r2.date]) (hlen : r2.date.length = 10)
    (hoff : r2.officer_name.isSome) (hst2 : r2.status.isSome) (hcm2 : r2.comments.isSome)
    (hs1 : save_report o r1 fs = some fs1) (hs2 : save_report o r2 fs1 = some fs2) :
    (load_reports fs2 (some o)).filter (sameKey r2.date r2.type) = [r2] := by
  have hsplit1 : pySplitWs r1.date = [r1.date] := by rw [hd]; exact hsplit
  rw [save_report_eq_general o r1 fs hsplit1] at hs1
  have hfs1 := (Option.some.inj hs1).symm
  subst hfs1
  rw [save_report_eq o r2 _ hsplit hst2 hcm2] at hs2
  have hfs2 := (Option.some.inj hs2).symm
  subst hfs2
  set dir := (lookupA o fs.folders).getD [] with hdir
  set fname := r2.date ++ "_" ++ replaceSpaces r2.type ++ ".json" with hfname
  have hfn1 : r1.date ++ "_" ++ replaceSpaces r1.type ++ ".json" = fname := by
    rw [hd, hty]
  simp only [lookupA_insertA_self, hfn1, Option.getD_some]
  rw [insertA_insertA_same fname (Doc.report (fillDefaults r1)) (Doc.report r2) dir]
  simp only [load_reports, if_neg hne, load_one, lookupA_insertA_self, if_neg hres]
  apply loadFolder_insert_key
  · -- names of the pre-existing folder are distinct
    cases hlk : lookupA o fs.folders with
    | none => simp [hdir, hlk]
    | some files0 =>
      have hmem := lookupA_mem o files0 fs.folders hlk
      have := (hwf.2 _ hmem).2
      simpa [hdir, hlk] using this
  · exact pyEndsWith_reportFilename r2.date r2.type
  · exact reportFilename_ne_template r2.date r2.type hlen
  · exact ⟨rfl, rfl⟩
  · exact fillOfficer_eq_self o r2 hoff
  · -- no other file of the folder can hold a record with this key
    intro f r hm hfne hk
    cases hlk : lookupA o fs.folders with
    | none =>
      rw [hdir, hlk] at hm
      cases hm
    | some files0 =>
      rw [hdir, hlk] at hm
      have hmem := lookupA_mem o files0 fs.folders hlk
      have hrf := hcons o files0 f r hmem hm
      apply hfne
      have hrsplit : pySplitWs r.date = [r2.date] := by rw [hk.1]; exact hsplit
      unfold reportFilename at hrf
      rw [hrsplit] at hrf
      simp only [List.head?_cons, Option.map_some'] at hrf
      have := Option.some.inj hrf
      rw [← this, hk.2, hfname]

def rptAliceV1 : Report := { rptAlice with tasks := "patrol v1" }

def fsAliceV1 : FS :=
  ⟨[("Alice", [("2024-01-01_Other_Report.json", Doc.report rptAliceV1)])], []⟩

/-- Witness for C2: saving two records with the same (Alice, 2024-01-01,
Other Report) key, the load returns exactly the second record for that key. -/
theorem save_same_key_overwrites_witness :
    (load_reports fsAlice (some "Alice")).filter
      (sameKey rptAlice.date rptAlice.type) = [rptAlice] :=
  save_same_key_overwrites fsEmpty fsAliceV1 fsAlice "Alice" rptAliceV1 rptAlice
    (by constructor <;> decide)
    (by intro o dir f r h1 h2; cases h1)
    (by decide) (by decide) (by decide) (by decide) (by decide) (by decide)
    (by decide) (by decide) (by decide) (by decide) (by decide)

/-! ## Claim C3 -/

theorem load_one_reserved (fs : FS) (a : String) (ha : a ∈ ADDITIONAL_FOLDERS) :
    load_one fs a = [] := by
  unfold load_one
  cases lookupA a fs.folders with
  | none => rfl
  | some files =>
    show (if a ∈ ADDITIONAL_FOLDERS then [] else loadFolder a files) = []
    rw [if_pos ha]

theorem load_reports_reserved (fs : FS) (a : String) (ha : a ∈ ADDITIONAL_FOLDERS)
    (hne : a ≠ "") : load_reports fs (some a) = [] := by
  simp only [load_reports, if_neg hne]
  exact load_one_reserved fs a ha

/-- The walk over a list of folder entries equals the concatenation of the
per-officer loads over its non-reserved names, provided each entry is what
`load_reports(officer)` would find. -/
theorem load_all_aux (fs : FS) (l : List (String × List (String × Doc)))
    (H : ∀ e ∈ l, e.1 ≠ "" ∧ lookupA e.1 fs.folders = some e.2) :
    (l.flatMap (fun e => if e.1 ∈ ADDITIONAL_FOLDERS then [] else loadFolder e.1 e.2)) =
      ((l.map Prod.fst).filter (fun o => decide (o ∉ ADDITIONAL_FOLDERS))).flatMap
        (fun o => load_reports fs (some o)) := by
  induction l with
  | nil => rfl
  | cons e rest ih =>
    obtain ⟨o, files⟩ := e
    have he := H _ (List.mem_cons_self _ _)
    have Hrest : ∀ e ∈ rest, e.1 ≠ "" ∧ lookupA e.1 fs.folders = some e.2 :=
      fun e hm => H e (List.mem_cons_of_mem _ hm)
    rw [List.flatMap_cons, List.map_cons]
    by_cases ha : o ∈ ADDITIONAL_FOLDERS
    · rw [if_pos ha, List.filter_cons_of_neg (by simpa using ha), ih Hrest,
        List.nil_append]
    · rw [if_neg ha, List.filter_cons_of_pos (by simpa using ha), List.flatMap_cons,
        ih Hrest]
      have hload : load_reports fs (some o) = loadFolder o files := by
        simp only [load_reports, if_neg he.1, load_one, he.2, if_neg ha]
      rw [hload]

/-- C3: `load_reports()` with no officer argument returns exactly the
concatenation, in directory order and hence without revisiting any file, of
`load_reports(officer)` over the non-reserved top-level folders; and no
reserved folder name (Templates, Summaries, Archives, Attachments, Tasks)
is ever loaded as an officer. -/
theorem load_all_is_union (fs : FS) (hwf : fs.WF) :
    load_reports fs none =
      ((fs.folders.map Prod.fst).filter
          (fun o => decide (o ∉ ADDITIONAL_FOLDERS))).flatMap
        (fun o => load_reports fs (some o)) ∧
    ∀ a ∈ ADDITIONAL_FOLDERS, load_reports fs (some a) = [] := by
  constructor
  · show load_all fs = _
    unfold load_all
    apply load_all_aux
    intro e hm
    exact ⟨(hwf.2 e hm).1, lookupA_eq_some_of_mem_nodup e.1 e.2 fs.folders hwf.1 hm⟩
  · intro a ha
    have hne : ∀ a ∈ ADDITIONAL_FOLDERS, a ≠ ("" : String) := by decide
    exact load_reports_reserved fs a ha (hne a ha)

def rptBob : Report := { rptAlice with officer_name := some "Bob", tasks := "desk duty" }

def fsTwo : FS :=
  ⟨[("Alice", [("2024-01-01_Other_Report.json", Doc.report rptAlice)]),
    ("Templates", [("t.json", Doc.report rptBob)]),
    ("Bob", [("2024-01-01_Other_Report.json", Doc.report rptBob)])], []⟩

/-- Witness for C3 at a concrete store with two officers and a reserved
folder holding a stray document. -/
theorem load_all_is_union_witness :
    load_reports fsTwo none =
      ((fsTwo.folders.map Prod.fst).filter
          (fun o => decide (o ∉ ADDITIONAL_FOLDERS))).flatMap
        (fun o => load_reports fsTwo (some o)) ∧
    ∀ a ∈ ADDITIONAL_FOLDERS, load_reports fsTwo (some a) = [] :=
  load_all_is_union fsTwo (by constructor <;> decide)

/-! ## Claim C4: the archival sweep moves exactly the old reports -/

theorem archiveInto_cons (o : String) (m : String × String × Doc)
    (ms : List (String × String × Doc))
    (arch : List ((String × String) × List (String × Doc))) :
    archiveInto o (m :: ms) arch =
      archiveInto o ms
        (insertA (m.1, o) (insertA m.2.1 m.2.2 ((lookupA (m.1, o) arch).getD [])) arch) :=
  rfl

theorem lookupA_folders_sweep (c : Date) (o : String)
    (l : List (String × List (String × Doc))) :
    lookupA o (l.map (sweepEntry c)) =
      (lookupA o l).map
        (fun files => if o ∈ ADDITIONAL_FOLDERS then files else (sweepFolder c files).1) := by
  induction l with
  | nil => rfl
  | cons e rest ih =>
    obtain ⟨k, v⟩ := e
    by_cases hk : k = o
    · subst hk
      simp [sweepEntry, lookupA]
    · simp only [List.map_cons, sweepEntry, lookupA, if_neg hk, ih]

theorem archiveInto_lookup_ne (o' o ym : String) (moved : List (String × String × Doc))
    (arch : List ((String × String) × List (String × Doc))) (h : o' ≠ o) :
    lookupA (ym, o) (archiveInto o' moved arch) = lookupA (ym, o) arch := by
  induction moved generalizing arch with
  | nil => rfl
  | cons m ms ih =>
    rw [archiveInto_cons, ih]
    apply lookupA_insertA_ne
    intro he
    exact h (congrArg Prod.snd he)

/-- Later moves with fresh file names keep an already-archived file in place. -/
theorem archiveInto_preserves (o ym f : String) (doc : Doc)
    (ms : List (String × String × Doc))
    (arch : List ((String × String) × List (String × Doc)))
    (hin : ∃ a, lookupA (ym, o) arch = some a ∧ (f, doc) ∈ a)
    (hnames : ∀ e ∈ ms, e.2.1 ≠ f) :
    ∃ a, lookupA (ym, o) (archiveInto o ms arch) = some a ∧ (f, doc) ∈ a := by
  induction ms generalizing arch with
  | nil => exact hin
  | cons m ms ih =>
    obtain ⟨ym', f', doc'⟩ := m
    obtain ⟨a, ha, hmem⟩ := hin
    rw [archiveInto_cons]
    refine ih _ ?_ (fun e hm => hnames e (List.mem_cons_of_mem _ hm))
    by_cases hy : ym' = ym
    · subst hy
      refine ⟨insertA f' doc' ((lookupA (ym', o) arch).getD []), lookupA_insertA_self _ _ _, ?_⟩
      rw [ha]
      exact mem_insertA_of_ne f f' doc doc' a hmem
        (Ne.symm (hnames _ (List.mem_cons_self _ _)))
    · refine ⟨a, ?_, hmem⟩
      rw [lookupA_insertA_ne]
      · exact ha
      · intro he
        exact hy (congrArg Prod.fst he)

/-- A moved file ends up present in its archive partition. -/
theorem archiveInto_mem (o ym f : String) (doc : Doc)
    (moved : List (String × String × Doc))
    (arch : List ((String × String) × List (String × Doc)))
    (hmem : (ym, f, doc) ∈ moved)
    (hnd : (moved.map (fun e => e.2.1)).Nodup) :
    ∃ a, lookupA (ym, o) (archiveInto o moved arch) = some a ∧ (f, doc) ∈ a := by
  induction moved generalizing arch with
  | nil => cases hmem
  | cons m ms ih =>
    simp only [List.map_cons, List.nodup_cons] at hnd
    rcases List.mem_cons.mp hmem with he | hr
    · subst he
      rw [archiveInto_cons]
      apply archiveInto_preserves
      · exact ⟨insertA f doc ((lookupA (ym, o) arch).getD []),
          lookupA_insertA_self _ _ _, mem_insertA_self _ _ _⟩
      · intro e hm hef
        have hmm : e.2.1 ∈ ms.map (fun e => e.2.1) :=
          List.mem_map_of_mem (fun e => e.2.1) hm
        rw [hef] at hmm
        exact hnd.1 hmm
    · rw [archiveInto_cons]
      exact ih _ hr hnd.2

/-- The names of the moved files form a sublist of the folder's file names. -/
theorem moved_names_sublist (c : Date) (files : List (String × Doc)) :
    ((sweepFolder c files).2.map (fun e => e.2.1)).Sublist (files.map Prod.fst) := by
  show ((files.filterMap
      (fun e => (classifyFile c e).map (fun d => (ymStr d, e.1, e.2)))).map
        (fun e => e.2.1)).Sublist (files.map Prod.fst)
  induction files with
  | nil => simp
  | cons e rest ih =>
    cases hc : classifyFile c e with
    | none =>
      rw [List.filterMap_cons_none (by rw [hc]; rfl), List.map_cons]
      exact List.Sublist.cons e.1 ih
    | some d =>
      rw [List.filterMap_cons_some (by rw [hc]; rfl), List.map_cons, List.map_cons]
      exact List.Sublist.cons₂ e.1 ih

theorem arch_foldl_pres (c : Date) (l : List (String × List (String × Doc)))
    (arch : List ((String × String) × List (String × Doc))) (ym o f : String) (doc : Doc)
    (hin : ∃ a, lookupA (ym, o) arch = some a ∧ (f, doc) ∈ a)
    (hkeys : ∀ e ∈ l, e.1 ≠ o) :
    ∃ a, lookupA (ym, o) (l.foldl (archStep c) arch) = some a ∧ (f, doc) ∈ a := by
  induction l generalizing arch with
  | nil => exact hin
  | cons e rest ih =>
    rw [List.foldl_cons]
    refine ih _ ?_ (fun e' hm => hkeys e' (List.mem_cons_of_mem _ hm))
    unfold archStep
    by_cases ha : e.1 ∈ ADDITIONAL_FOLDERS
    · rw [if_pos ha]
      exact hin
    · rw [if_neg ha]
      obtain ⟨a, h1, h2⟩ := hin
      refine ⟨a, ?_, h2⟩
      rw [archiveInto_lookup_ne _ _ _ _ _ (hkeys e (List.mem_cons_self _ _))]
      exact h1

theorem classifyFile_report (c : Date) (f : String) (r : Report) (d : Date)
    (hjson : pyEndsWith f ".json" = true) (hd : parseDate r.date = some d) :
    classifyFile c (f, Doc.report r) = if Date.ltb d c then some d else none := by
  simp [classifyFile, hjson, hd]

/-- C4: for a well-formed store and a report file in an officer folder with a
parseable date `d`: when `d` is before the sweep cutoff (`archive_before`,
computed by the code as now minus the 30-day retention window), after the
sweep the file is absent from the officer folder and present at archive path
`Archives/{year}_{month}/{officer}/{filename}`; when `d` is not before the
cutoff, the sweep leaves the file in the officer folder untouched. -/
theorem archive_sweep_moves_old (archive_before : Date) (fs : FS) (o f : String)
    (r : Report) (d : Date) (files : List (String × Doc))
    (hwf : fs.WF)
    (hlk : lookupA o fs.folders = some files)
    (ho : o ∉ ADDITIONAL_FOLDERS)
    (hf : (f, Doc.report r) ∈ files)
    (hjson : pyEndsWith f ".json" = true)
    (hd : parseDate r.date = some d) :
    (Date.ltb d archive_before = true →
      lookupA o (auto_archive_old_reports archive_before fs).folders =
        some (sweepFolder archive_before files).1 ∧
      (∀ doc', (f, doc') ∉ (sweepFolder archive_before files).1) ∧
      ∃ a, lookupA (ymStr d, o) (auto_archive_old_reports archive_before fs).archives =
          some a ∧ (f, Doc.report r) ∈ a) ∧
    (Date.ltb d archive_before = false →
      lookupA o (auto_archive_old_reports archive_before fs).folders =
        some (sweepFolder archive_before files).1 ∧
      (f, Doc.report r) ∈ (sweepFolder archive_before files).1) := by
  have hfolders : lookupA o (auto_archive_old_reports archive_before fs).folders =
      some (sweepFolder archive_before files).1 := by
    show lookupA o (fs.folders.map (sweepEntry archive_before)) = _
    rw [lookupA_folders_sweep, hlk, Option.map_some', if_neg ho]
  have hndf : (files.map Prod.fst).Nodup :=
    (hwf.2 _ (lookupA_mem o files fs.folders hlk)).2
  constructor
  · intro hltb
    have hclass : classifyFile archive_before (f, Doc.report r) = some d := by
      rw [classifyFile_report _ _ _ _ hjson hd, if_pos hltb]
    refine ⟨hfolders, ?_, ?_⟩
    · intro doc' hmem'
      have h1 := List.mem_filter.mp hmem'
      have hdoc : doc' = Doc.report r := nodup_keys_mem_eq f doc' (Doc.report r) files hndf h1.1 hf
      rw [hdoc] at h1
      rw [hclass] at h1
      simp at h1
    · -- the moved file lands in the archive partition
      obtain ⟨s, t, hst⟩ := List.append_of_mem (lookupA_mem o files fs.folders hlk)
      have hmapfst : ((s ++ (o, files) :: t).map Prod.fst).Nodup := by
        rw [← hst]
        exact hwf.1
      rw [List.map_append, List.map_cons] at hmapfst
      obtain ⟨hnds, hndc, hdisj⟩ := List.nodup_append.mp hmapfst
      have ht_no : ∀ e ∈ t, e.1 ≠ o := by
        intro e hm he
        have hmm : e.1 ∈ t.map Prod.fst := List.mem_map_of_mem Prod.fst hm
        rw [he] at hmm
        exact (List.nodup_cons.mp hndc).1 hmm
      show ∃ a, lookupA (ymStr d, o) (fs.folders.foldl (archStep archive_before) fs.archives)
          = some a ∧ _
      rw [hst, List.foldl_append, List.foldl_cons]
      apply arch_foldl_pres _ _ _ _ _ _ _ _ ht_no
      have hstep : archStep archive_before (s.foldl (archStep archive_before) fs.archives)
          (o, files) = archiveInto o (sweepFolder archive_before files).2
            (s.foldl (archStep archive_before) fs.archives) := by
        unfold archStep
        rw [if_neg ho]
      rw [hstep]
      apply archiveInto_mem
      · apply List.mem_filterMap.mpr
        refine ⟨(f, Doc.report r), hf, ?_⟩
        rw [hclass]
        rfl
      · exact List.Nodup.sublist (moved_names_sublist archive_before files) hndf
  · intro hltb
    refine ⟨hfolders, ?_⟩
    apply List.mem_filter.mpr
    refine ⟨hf, ?_⟩
    rw [classifyFile_report _ _ _ _ hjson hd, if_neg (by rw [hltb]; exact Bool.false_ne_true)]
    rfl

def rptOld : Report := { rptAlice with date := "2024-01-01" }

def fsOld : FS := ⟨[("Alice", [("2024-01-01_Other_Report.json", Doc.report rptOld)])], []⟩

/-- Witness for C4: with cutoff 2025-05-02, Alice's 2024-01-01 report is
moved to `Archives/2024_01/Alice`; with cutoff 2023-12-01 it stays. -/
theorem archive_sweep_moves_old_witness :
    (Date.ltb ⟨2024, 1, 1⟩ ⟨2025, 5, 2⟩ = true →
      lookupA "Alice" (auto_archive_old_reports ⟨2025, 5, 2⟩ fsOld).folders =
        some (sweepFolder ⟨2025, 5, 2⟩
          [("2024-01-01_Other_Report.json", Doc.report rptOld)]).1 ∧
      (∀ doc', ("2024-01-01_Other_Report.json", doc') ∉
        (sweepFolder ⟨2025, 5, 2⟩
          [("2024-01-01_Other_Report.json", Doc.report rptOld)]).1) ∧
      ∃ a, lookupA (ymStr ⟨2024, 1, 1⟩, "Alice")
          (auto_archive_old_reports ⟨2025, 5, 2⟩ fsOld).archives = some a ∧
        ("2024-01-01_Other_Report.json", Doc.report rptOld) ∈ a) ∧
    (Date.ltb ⟨2024, 1, 1⟩ ⟨2025, 5, 2⟩ = false →
      lookupA "Alice" (auto_archive_old_reports ⟨2025, 5, 2⟩ fsOld).folders =
        some (sweepFolder ⟨2025, 5, 2⟩
          [("2024-01-01_Other_Report.json", Doc.report rptOld)]).1 ∧
      ("2024-01-01_Other_Report.json", Doc.report rptOld) ∈
        (sweepFolder ⟨2025, 5, 2⟩
          [("2024-01-01_Other_Report.json", Doc.report rptOld)]).1) :=
  archive_sweep_moves_old ⟨2025, 5, 2⟩ fsOld "Alice" "2024-01-01_Other_Report.json"
    rptOld ⟨2024, 1, 1⟩ [("2024-01-01_Other_Report.json", Doc.report rptOld)]
    (by constructor <;> decide) (by decide) (by decide) (by decide) (by decide) (by decide)

/-! ## Claim C8: re-running the sweep is a no-op -/

theorem sweepFolder_kept (c : Date) (files : List (String × Doc)) :
    sweepFolder c (sweepFolder c files).1 = ((sweepFolder c files).1, []) := by
  rw [Prod.ext_iff]
  constructor
  · show List.filter _ (List.filter _ files) = List.filter _ files
    apply List.filter_eq_self.mpr
    intro a ha
    exact (List.mem_filter.mp ha).2
  · show List.filterMap _ (List.filter _ files) = []
    apply List.filterMap_eq_nil_iff.mpr
    intro a ha
    have h2 := (List.mem_filter.mp ha).2
    rw [Option.isNone_iff_eq_none] at h2
    rw [h2]
    rfl

theorem sweepEntry_idem (c : Date) (e : String × List (String × Doc)) :
    sweepEntry c (sweepEntry c e) = sweepEntry c e := by
  unfold sweepEntry
  by_cases ha : e.1 ∈ ADDITIONAL_FOLDERS
  · simp [ha]
  · simp only [if_neg ha]
    rw [Prod.mk.injEq, sweepFolder_kept c e.2]
    exact ⟨rfl, rfl⟩

theorem sweepEntry_map_idem (c : Date) (l : List (String × List (String × Doc))) :
    (l.map (sweepEntry c)).map (sweepEntry c) = l.map (sweepEntry c) := by
  rw [List.map_map]
  apply List.map_congr_left
  intro e _
  exact sweepEntry_idem c e

theorem archStep_sweepEntry_id (c : Date)
    (arch : List ((String × String) × List (String × Doc)))
    (e : String × List (String × Doc)) :
    archStep c arch (sweepEntry c e) = arch := by
  unfold archStep sweepEntry
  by_cases ha : e.1 ∈ ADDITIONAL_FOLDERS
  · simp [ha]
  · simp only [if_neg ha]
    have h2 : (sweepFolder c (sweepFolder c e.2).1).2 = [] :=
      congrArg Prod.snd (sweepFolder_kept c e.2)
    rw [h2]
    rfl

theorem archStep_foldl_mapped (c : Date) (l : List (String × List (String × Doc)))
    (arch : List ((String × String) × List (String × Doc))) :
    (l.map (sweepEntry c)).foldl (archStep c) arch = arch := by
  induction l generalizing arch with
  | nil => rfl
  | cons e rest ih =>
    rw [List.map_cons, List.foldl_cons, archStep_sweepEntry_id]
    exact ih arch

/-- C8: re-running the archival sweep with the same cutoff immediately after
a run is a no-op on the whole store: already-moved records are no longer
found in any officer folder, nothing is moved again, and the archive tree is
not modified. -/
theorem archive_sweep_idempotent (archive_before : Date) (fs : FS) :
    auto_archive_old_reports archive_before (auto_archive_old_reports archive_before fs) =
      auto_archive_old_reports archive_before fs := by
  show FS.mk ((fs.folders.map (sweepEntry archive_before)).map (sweepEntry archive_before))
      ((fs.folders.map (sweepEntry archive_before)).foldl (archStep archive_before)
        (fs.folders.foldl (archStep archive_before) fs.archives)) = _
  rw [sweepEntry_map_idem, archStep_foldl_mapped]
  rfl

/-! ## Claim C5: the Approve action -/

/-- C5: applying the "Approve" review action to a pending report stores the
record with status `Approved`, a non-null review timestamp and the reviewer's
notes, while the tasks, challenges and solutions narratives are unchanged.
The stored record is located at the officer's folder under the file name
derived from the record's date and type. -/
theorem approve_updates_status (review_ts notes : String) (r : Report) (fs fs' : FS)
    (hpend : r.status = some "Pending Review")
    (hsplit : pySplitWs r.date = [r.date])
    (h : approve_action review_ts notes r fs = some fs') :
    ∃ dir fname r',
      lookupA (r.officer_name.getD "Unknown") fs'.folders = some dir ∧
      lookupA fname dir = some (Doc.report r') ∧
      r'.status = some "Approved" ∧
      r'.review_date = some review_ts ∧ r'.review_date ≠ none ∧
      r'.reviewer_notes = some notes ∧
      r'.tasks = r.tasks ∧ r'.challenges = r.challenges ∧ r'.solutions = r.solutions := by
  unfold approve_action at h
  have hsplit' : pySplitWs (approveReport review_ts notes r).date =
      [(approveReport review_ts notes r).date] := hsplit
  rw [save_report_eq_general _ _ _ hsplit'] at h
  have hfs' := (Option.some.inj h).symm
  subst hfs'
  refine ⟨_, (approveReport review_ts notes r).date ++ "_" ++
      replaceSpaces (approveReport review_ts notes r).type ++ ".json",
    fillDefaults (approveReport review_ts notes r),
    lookupA_insertA_self _ _ _, lookupA_insertA_self _ _ _,
    rfl, rfl, ?_, rfl, rfl, rfl, rfl⟩
  intro hcon
  cases hcon

def rptApproved : Report :=
  { rptAlice with
      status := some "Approved",
      review_date := some "2024-01-05 10:00:00",
      reviewer_notes := some "ok" }

def fsApproved : FS :=
  ⟨[("Alice", [("2024-01-01_Other_Report.json", Doc.report rptApproved)])], []⟩

/-- Witness for C5: approving Alice's pending report in the empty store. -/
theorem approve_updates_status_witness :
    ∃ dir fname r',
      lookupA (rptAlice.officer_name.getD "Unknown") fsApproved.folders = some dir ∧
      lookupA fname dir = some (Doc.report r') ∧
      r'.status = some "Approved" ∧
      r'.review_date = some "2024-01-05 10:00:00" ∧ r'.review_date ≠ none ∧
      r'.reviewer_notes = some "ok" ∧
      r'.tasks = rptAlice.tasks ∧ r'.challenges = rptAlice.challenges ∧
      r'.solutions = rptAlice.solutions :=
  approve_updates_status "2024-01-05 10:00:00" "ok" rptAlice fsEmpty fsApproved
    (by decide) (by decide) (by decide)

/-! ## Claim C6: malformed documents and missing namespaces -/

theorem loadFolder_filter_malformed (o : String) (files : List (String × Doc)) :
    loadFolder o (files.filter notMalformed) = loadFolder o files := by
  induction files with
  | nil => rfl
  | cons e rest ih =>
    obtain ⟨f, dc⟩ := e
    cases dc with
    | malformed =>
      rw [List.filter_cons_of_neg (by simp [notMalformed]), loadFolder_cons_malformed]
      exact ih
    | report r =>
      rw [List.filter_cons_of_pos (by rfl)]
      by_cases hc : goodName (f, Doc.report r) = true
      · obtain ⟨hj, ht'⟩ := Bool.and_eq_true_iff.mp ((goodName_eq f (Doc.report r)) ▸ hc)
        have ht : f ≠ "template.json" := of_decide_eq_true ht'
        rw [loadFolder_cons_report o f r _ hj ht, loadFolder_cons_report o f r _ hj ht, ih]
      · rw [loadFolder_cons_badname o f _ _ hc, loadFolder_cons_badname o f _ _ hc]
        exact ih

theorem lookupA_dropMalformed (o : String) (l : List (String × List (String × Doc))) :
    lookupA o (l.map dropEntry) = (lookupA o l).map (fun files => files.filter notMalformed) := by
  induction l with
  | nil => rfl
  | cons e rest ih =>
    obtain ⟨k, v⟩ := e
    by_cases hk : k = o
    · subst hk
      simp [dropEntry, lookupA]
    · simp only [List.map_cons, dropEntry, lookupA, if_neg hk, ih]

theorem dropEntry_load (e : String × List (String × Doc)) :
    (if (dropEntry e).1 ∈ ADDITIONAL_FOLDERS then []
      else loadFolder (dropEntry e).1 (dropEntry e).2) =
      (if e.1 ∈ ADDITIONAL_FOLDERS then [] else loadFolder e.1 e.2) := by
  show (if e.1 ∈ ADDITIONAL_FOLDERS then [] else loadFolder e.1 (e.2.filter notMalformed)) = _
  by_cases ha : e.1 ∈ ADDITIONAL_FOLDERS
  · rw [if_pos ha, if_pos ha]
  · rw [if_neg ha, if_neg ha, loadFolder_filter_malformed]

theorem load_all_dropMalformed (fs : FS) :
    load_all (dropMalformed fs) = load_all fs := by
  show (fs.folders.map dropEntry).flatMap _ = fs.folders.flatMap _
  induction fs.folders with
  | nil => rfl
  | cons e rest ih =>
    rw [List.map_cons, List.flatMap_cons, List.flatMap_cons, ih]
    congr 1
    exact dropEntry_load e

/-- C6: during a load, a document that fails to parse is excluded from the
result without aborting the load of the remaining documents — loading is
blind to malformed documents, for every query — and loading an officer
namespace that does not exist on disk returns the empty result rather than
an error. -/
theorem load_skips_malformed_and_missing (fs : FS) :
    (∀ o, o ≠ "" → lookupA o fs.folders = none → load_reports fs (some o) = []) ∧
    (∀ q, load_reports (dropMalformed fs) q = load_reports fs q) := by
  constructor
  · intro o hne hmiss
    simp only [load_reports, if_neg hne, load_one, hmiss]
  · have hone : ∀ o, load_one (dropMalformed fs) o = load_one fs o := by
      intro o
      show (match lookupA o (fs.folders.map dropEntry) with
        | some files => if o ∈ ADDITIONAL_FOLDERS then [] else loadFolder o files
        | none => []) =
        (match lookupA o fs.folders with
        | some files => if o ∈ ADDITIONAL_FOLDERS then [] else loadFolder o files
        | none => [])
      rw [lookupA_dropMalformed]
      cases hlk : lookupA o fs.folders with
      | none => rfl
      | some files =>
        show (if o ∈ ADDITIONAL_FOLDERS then [] else loadFolder o (files.filter notMalformed)) =
          (if o ∈ ADDITIONAL_FOLDERS then [] else loadFolder o files)
        by_cases ha : o ∈ ADDITIONAL_FOLDERS
        · rw [if_pos ha, if_pos ha]
        · rw [if_neg ha, if_neg ha, loadFolder_filter_malformed]
    intro q
    cases q with
    | none => exact load_all_dropMalformed fs
    | some o =>
      by_cases ho : o = ""
      · simp only [load_reports, if_pos ho]
        exact load_all_dropMalformed fs
      · simp only [load_reports, if_neg ho]
        exact hone o

def fsWithBad : FS :=
  ⟨[("Alice", [("bad.json", Doc.malformed),
      ("2024-01-01_Other_Report.json", Doc.report rptAlice)])], []⟩

/-- Witness for C6: a store whose Alice folder holds a malformed document
loads as if that document were not there, and a folder that does not exist
loads as empty. -/
theorem load_skips_malformed_and_missing_witness :
    load_reports fsWithBad (some "Ghost") = [] ∧
    load_reports (dropMalformed fsWithBad) none = load_reports fsWithBad none :=
  ⟨(load_skips_malformed_and_missing fsWithBad).1 "Ghost" (by decide) (by decide),
    (load_skips_malformed_and_missing fsWithBad).2 none⟩

/-! ## Claim C7: submission does not run the archival sweep

`auto_archive_old_reports` is defined in `officer_report_dash.py` but never
called — not from `submit_report` nor anywhere else in the repository.  A
successful submission therefore only writes the new report file; reports
older than the retention window stay in their officer folders. -/

theorem save_report_some (o : String) (r : Report) (fs fs' : FS)
    (h : save_report o r fs = some fs') :
    ∃ fname, reportFilename (fillDefaults r) = some fname ∧
      fs' = ⟨insertA o (insertA fname (Doc.report (fillDefaults r))
          ((lookupA o fs.folders).getD [])) fs.folders, fs.archives⟩ := by
  unfold save_report at h
  cases hrf : reportFilename (fillDefaults r) with
  | none =>
    rw [hrf] at h
    cases h
  | some fname =>
    rw [hrf] at h
    exact ⟨fname, rfl, (Option.some.inj h).symm⟩

def rptSubmitted : Report :=
  { id := some "id9", type := "Other Report", date := "2025-06-01",
    officer_name := some "Bob", tasks := "patrol", challenges := "",
    solutions := "", status := some "Pending Review",
    submission_date := some "2025-06-01 10:00:00", review_date := none,
    reviewer_notes := none, priority := some "Normal",
    attachments := some [], comments := some [] }

def fsAfterSubmit : FS :=
  ⟨[("Alice", [("2024-01-01_Other_Report.json", Doc.report rptOld)]),
    ("Bob", [("2025-06-01_Other_Report.json", Doc.report rptSubmitted)])], []⟩

/-- C7 counterexample: Bob successfully submits a report on 2025-06-01, at
which time Alice's stored report dated 2024-01-01 is far older than the
30-day retention window (the cutoff now − 30 days is 2025-05-02); yet after
the submission that old report is still in Alice's folder and the archive
tree is still empty — no relocation happened, because `submit_report` never
invokes `auto_archive_old_reports`. -/
theorem submit_report_does_not_archive_cex :
    submit_report "Bob" "2025-06-01" "Other Report" "patrol" "" "" "id9"
      "2025-06-01 10:00:00" fsOld = some fsAfterSubmit ∧
    parseDate rptOld.date = some ⟨2024, 1, 1⟩ ∧
    Date.ltb ⟨2024, 1, 1⟩ ⟨2025, 5, 2⟩ = true ∧
    lookupA "Alice" fsAfterSubmit.folders =
      some [("2024-01-01_Other_Report.json", Doc.report rptOld)] ∧
    fsAfterSubmit.archives = [] := by
  refine ⟨by decide, by decide, by decide, by decide, rfl⟩

/-- C7 amended: the archival sweep is not executed as a side effect of report
submission — it is never invoked.  A successful `submit_report` only writes
the new report into the submitting officer's folder: the archive tree is
unchanged and every other top-level folder is unchanged, old reports
included. -/
theorem submit_report_no_archive (officer dateStr category tasks challenges
    solutions idStr subTs : String) (fs fs' : FS)
    (h : submit_report officer dateStr category tasks challenges solutions
      idStr subTs fs = some fs') :
    fs'.archives = fs.archives ∧
    ∀ o, o ≠ officer → lookupA o fs'.folders = lookupA o fs.folders := by
  unfold submit_report at h
  by_cases hg : officer ≠ "" ∧ officer ≠ "Select Officer..." ∧
      officer ≠ "+ Add New Officer" ∧ tasks ≠ ""
  · rw [if_pos hg] at h
    obtain ⟨fname, hrf, hfs'⟩ := save_report_some officer _ fs fs' h
    subst hfs'
    refine ⟨rfl, ?_⟩
    intro o ho
    exact lookupA_insertA_ne o officer _ fs.folders (Ne.symm ho)
  · rw [if_neg hg] at h
    cases h

/-- Witness for the amended C7 at the concrete submission of the
counterexample. -/
theorem submit_report_no_archive_witness :
    fsAfterSubmit.archives = fsOld.archives ∧
    ∀ o, o ≠ "Bob" → lookupA o fsAfterSubmit.folders = lookupA o fsOld.folders :=
  submit_report_no_archive "Bob" "2025-06-01" "Other Report" "patrol" "" "" "id9"
    "2025-06-01 10:00:00" fsOld fsAfterSubmit (by decide)

/-! ## Claim C9: task identifiers -/

def taskA : Task :=
  { task_id := none, title := "file the minutes", description := "",
    priority := "High", category := "Work", status := "Pending",
    due_date := "2024-01-02", assigned_to := "Alice",
    created_date := "2024-01-01", comments := [] }

def taskB : Task := { taskA with title := "restock supplies" }

/-- C9 counterexample: two distinct tasks created via `save_task` within the
same clock second (the id defaults to `datetime.now().strftime('%Y%m%d_%H%M%S')`,
second granularity) receive the same identifier, and the second write
destroys the first task's stored record. -/
theorem task_id_not_unique_cex :
    (save_task "20240101_120000" taskA []).1 =
      (save_task "20240101_120000" taskB (save_task "20240101_120000" taskA []).2).1 ∧
    taskA ≠ taskB ∧
    load_tasks (save_task "20240101_120000" taskB
      (save_task "20240101_120000" taskA []).2).2 = [taskB] := by
  refine ⟨rfl, by decide, by decide⟩

/-- C9 amended: a task's identifier is immutable once created — `save_task`
on a task that already carries `task_id = i` returns `i` and rewrites the
same `task_{i}.json` file with the task unchanged (this covers the edit,
status-update and comment flows, which all preserve `task_id`) — and tasks
created without an identifier at distinct creation timestamps receive
distinct identifiers.  Uniqueness holds only up to the one-second timestamp
granularity, as the counterexample shows. -/
theorem task_id_immutable_and_timestamped :
    (∀ now_ts t dir i, t.task_id = some i →
      save_task now_ts t dir =
        (i, insertA ("task_" ++ i ++ ".json") (TaskDoc.task t) dir)) ∧
    (∀ n1 n2 t1 t2 d1 d2, t1.task_id = none → t2.task_id = none → n1 ≠ n2 →
      (save_task n1 t1 d1).1 ≠ (save_task n2 t2 d2).1) := by
  constructor
  · intro now_ts t dir i hi
    unfold save_task
    rw [hi]
    rfl
  · intro n1 n2 t1 t2 d1 d2 h1 h2 hne
    unfold save_task
    rw [h1, h2]
    simpa using hne

def taskC : Task := { taskA with task_id := some "id7" }

/-- Witness for the amended C9: saving a task that already has id `id7`
keeps that id, and two id-less tasks created at different timestamps get
different ids. -/
theorem task_id_immutable_and_timestamped_witness :
    save_task "20240202_000000" taskC [] =
      ("id7", insertA ("task_" ++ "id7" ++ ".json") (TaskDoc.task taskC) []) ∧
    (save_task "20240101_120000" taskA []).1 ≠ (save_task "20240101_120001" taskB []).1 :=
  ⟨task_id_immutable_and_timestamped.1 "20240202_000000" taskC [] "id7" rfl,
    task_id_immutable_and_timestamped.2 "20240101_120000" "20240101_120001"
      taskA taskB [] [] rfl rfl (by decide)⟩

/-! ## Claim C10: the officer-name fill on load -/

theorem fillOfficer_ne_none (o : String) (r : Report) :
    (fillOfficer o r).officer_name ≠ none := by
  unfold fillOfficer
  cases h : r.officer_name with
  | none => simp [h]
  | some x => simp [h]

theorem loadFolder_mem_shape (o : String) (files : List (String × Doc)) (r' : Report)
    (h : r' ∈ loadFolder o files) : ∃ r, r' = fillOfficer o r := by
  obtain ⟨e, he, hf⟩ := List.mem_filterMap.mp h
  cases hd : e.2 with
  | report r =>
    unfold docToReport at hf
    rw [hd] at hf
    exact ⟨r, (Option.some.inj hf).symm⟩
  | malformed =>
    unfold docToReport at hf
    rw [hd] at hf
    cases hf

theorem load_all_mem_shape (fs : FS) (r' : Report) (h : r' ∈ load_all fs) :
    ∃ e ∈ fs.folders, r' ∈ loadFolder e.1 e.2 := by
  unfold load_all at h
  obtain ⟨e, he, hmem⟩ := List.mem_flatMap.mp h
  by_cases ha : e.1 ∈ ADDITIONAL_FOLDERS
  · rw [if_pos ha] at hmem
    cases hmem
  · rw [if_neg ha] at hmem
    exact ⟨e, he, hmem⟩

/-- C10: every record returned by `load_reports` carries an `officer_name`;
and a stored document lacking the `officer_name` key is returned with it set
to the name of the officer folder it was read from. -/
theorem load_fills_officer_name (fs : FS) (hwf : fs.WF) :
    (∀ q r', r' ∈ load_reports fs q → r'.officer_name ≠ none) ∧
    (∀ o files f r, lookupA o fs.folders = some files → o ∉ ADDITIONAL_FOLDERS →
      (f, Doc.report r) ∈ files → pyEndsWith f ".json" = true →
      f ≠ "template.json" → r.officer_name = none →
      { r with officer_name := some o } ∈ load_reports fs (some o)) := by
  constructor
  · intro q r' hmem
    have hall : r' ∈ load_all fs → ∃ o'' rr, r' = fillOfficer o'' rr := by
      intro hm
      obtain ⟨e, he, hmm⟩ := load_all_mem_shape fs r' hm
      obtain ⟨rr, hr⟩ := loadFolder_mem_shape e.1 e.2 r' hmm
      exact ⟨e.1, rr, hr⟩
    have hshape : ∃ o'' rr, r' = fillOfficer o'' rr := by
      cases q with
      | none => exact hall hmem
      | some o =>
        by_cases ho : o = ""
        · simp only [load_reports, if_pos ho] at hmem
          exact hall hmem
        · simp only [load_reports, if_neg ho, load_one] at hmem
          cases hlk : lookupA o fs.folders with
          | none =>
            simp only [hlk] at hmem
            cases hmem
          | some files =>
            simp only [hlk] at hmem
            by_cases ha : o ∈ ADDITIONAL_FOLDERS
            · rw [if_pos ha] at hmem
              cases hmem
            · rw [if_neg ha] at hmem
              obtain ⟨rr, hr⟩ := loadFolder_mem_shape o files r' hmem
              exact ⟨o, rr, hr⟩
    obtain ⟨o'', rr, hr⟩ := hshape
    rw [hr]
    exact fillOfficer_ne_none o'' rr
  · intro o files f r hlk hres hf hjson htpl hnone
    have ho : o ≠ "" := (hwf.2 _ (lookupA_mem o files fs.folders hlk)).1
    simp only [load_reports, if_neg ho, load_one, hlk, if_neg hres]
    have hm := mem_loadFolder o f r files hf hjson htpl
    have hfill : fillOfficer o r = { r with officer_name := some o } := by
      unfold fillOfficer
      rw [hnone]
      rfl
    rw [hfill] at hm
    exact hm

def rptNoName : Report := { rptAlice with officer_name := none }

def fsNoName : FS :=
  ⟨[("Alice", [("2024-01-01_Other_Report.json", Doc.report rptNoName)])], []⟩

/-- Witness for C10: a stored record without `officer_name` is returned with
the folder name Alice filled in. -/
theorem load_fills_officer_name_witness :
    { rptNoName with officer_name := some "Alice" } ∈
      load_reports fsNoName (some "Alice") :=
  (load_fills_officer_name fsNoName (by constructor <;> decide)).2 "Alice"
    [("2024-01-01_Other_Report.json", Doc.report rptNoName)]
    "2024-01-01_Other_Report.json" rptNoName rfl (by decide) (by decide)
    (by decide) (by decide) rfl

end ReportDash
